import Mathlib

/-!
Verification of the hierarchical cookie cache and session-reconciliation
subsystem of the browser_launcher repository
(src/browser_launcher/cookies.py), shallowly embedded in Lean 4.

Modelling conventions:
* Python dicts are association lists `List (String × V)` in insertion
  order; `dictGet?` is key lookup (first match), `dictInsert` replaces the
  value in place when the key is present and appends otherwise, matching
  CPython dict semantics for unique-keyed dicts; `del` of a set of keys is
  a filter.
* Instants are integers (whole seconds); `datetime` subtraction followed
  by `total_seconds()` is exact on whole-second instants, and the wall
  clock read by `datetime.now(timezone.utc)` is passed explicitly as a
  `now : Int` argument, held constant during one call.
* Persisted timestamp strings are modelled by `TimeStr`: `iso t` is a
  string that `datetime.fromisoformat` parses to the instant `t` (naive
  values already normalized to UTC by the `replace(tzinfo)` step),
  `sentinel` is the literal placeholder `"..."`, and `malformed s` is any
  other, unparseable string. `isoformat` of the instant `t` is `iso t`.
* The Selenium driver is modelled by the list its `get_cookies()` method
  returns; selenium cookie dicts always carry a `name` key.
* Each mutating method of `CookieConfig` maps the configuration tree to a
  new tree; read methods additionally return the (unchanged) tree as a
  second component so that frame properties are expressible.
-/

namespace BrowserLauncher

/-- Python dict with string keys, as an association list in insertion order. -/
abbrev Dict (V : Type) : Type := List (String × V)

/-- Key lookup, Python `d.get(k)` / `d[k]` (first matching key). -/
def dictGet? {V : Type} (m : Dict V) (k : String) : Option V :=
  match m with
  | [] => none
  | (k1, v) :: rest => if k1 = k then some v else dictGet? rest k

/-- Python `d[k] = v`: replace in place when the key exists, append otherwise. -/
def dictInsert {V : Type} (m : Dict V) (k : String) (v : V) : Dict V :=
  match m with
  | [] => [(k, v)]
  | (k1, v1) :: rest =>
    if k1 = k then (k1, v) :: rest else (k1, v1) :: dictInsert rest k v

/-- Python `list(d.keys())`. -/
def dictKeys {V : Type} (m : Dict V) : List String :=
  m.map Prod.fst

/-- Python `k in d`. -/
def dictHasKey {V : Type} (m : Dict V) (k : String) : Bool :=
  (dictGet? m k).isSome

/-- Python `d.update(src)`: insert every pair of `src` in order. -/
def dictInsertAll {V : Type} (m : Dict V) (src : List (String × V)) : Dict V :=
  match src with
  | [] => m
  | (k, v) :: rest => dictInsertAll (dictInsert m k v) rest

theorem dictGet?_insert_self {V : Type} (m : Dict V) (k : String) (v : V) :
    dictGet? (dictInsert m k v) k = some v := by
  induction m with
  | nil => simp [dictInsert, dictGet?]
  | cons p rest ih =>
    obtain ⟨k1, v1⟩ := p
    by_cases h : k1 = k
    · simp [dictInsert, dictGet?, h]
    · simp [dictInsert, dictGet?, h, ih]

@[simp] theorem dictKeys_nil {V : Type} : dictKeys ([] : Dict V) = [] := rfl

@[simp] theorem dictKeys_cons {V : Type} (k1 : String) (v1 : V) (rest : Dict V) :
    dictKeys ((k1, v1) :: rest) = k1 :: dictKeys rest := rfl

theorem dictGet?_insert_ne {V : Type} (m : Dict V) (k k1 : String) (v : V)
    (h : k1 ≠ k) :
    dictGet? (dictInsert m k v) k1 = dictGet? m k1 := by
  have hkk : ¬ k = k1 := fun hh => h hh.symm
  induction m with
  | nil => simp [dictInsert, dictGet?, hkk]
  | cons p rest ih =>
    obtain ⟨k2, v2⟩ := p
    by_cases h2 : k2 = k
    · subst h2
      simp [dictInsert, dictGet?, hkk]
    · simp only [dictInsert, if_neg h2, dictGet?]
      by_cases h3 : k2 = k1
      · simp [h3]
      · simp [h3, ih]

theorem dictGet?_eq_none_iff {V : Type} (m : Dict V) (k : String) :
    dictGet? m k = none ↔ k ∉ dictKeys m := by
  induction m with
  | nil => simp [dictGet?]
  | cons p rest ih =>
    obtain ⟨k1, v1⟩ := p
    by_cases h : k1 = k
    · subst h
      simp [dictGet?]
    · have hk1 : ¬ k = k1 := fun hh => h hh.symm
      simp [dictGet?, h, ih, hk1, not_or]

theorem dictKeys_insert_mem {V : Type} (m : Dict V) (k : String) (v : V)
    (h : k ∈ dictKeys m) :
    dictKeys (dictInsert m k v) = dictKeys m := by
  induction m with
  | nil => simp at h
  | cons p rest ih =>
    obtain ⟨k1, v1⟩ := p
    by_cases h1 : k1 = k
    · simp [dictInsert, h1]
    · have hk : k ∈ dictKeys rest := by
        rcases (by simpa using h) with h2 | h2
        · exact absurd h2.symm h1
        · exact h2
      simp [dictInsert, h1, ih hk]

theorem dictKeys_insert_not_mem {V : Type} (m : Dict V) (k : String) (v : V)
    (h : k ∉ dictKeys m) :
    dictKeys (dictInsert m k v) = dictKeys m ++ [k] := by
  induction m with
  | nil => simp [dictInsert]
  | cons p rest ih =>
    obtain ⟨k1, v1⟩ := p
    simp [not_or] at h
    by_cases h1 : k1 = k
    · exact absurd h1.symm h.1
    · simp [dictInsert, h1, ih h.2]

theorem dictKeys_insert_nodup {V : Type} (m : Dict V) (k : String) (v : V)
    (h : (dictKeys m).Nodup) :
    (dictKeys (dictInsert m k v)).Nodup := by
  by_cases hk : k ∈ dictKeys m
  · rw [dictKeys_insert_mem m k v hk]; exact h
  · rw [dictKeys_insert_not_mem m k v hk]
    refine List.Nodup.append h (List.nodup_singleton k) ?_
    intro a ha hb
    simp at hb
    subst hb
    exact hk ha

/-- Abstract model of persisted timestamp strings (see module conventions). -/
inductive TimeStr where
  | iso (t : Int)
  | sentinel
  | malformed (s : String)
deriving DecidableEq, Repr

/-- Model of `datetime.fromisoformat` followed by UTC normalization:
succeeds exactly on parseable timestamp strings. -/
def fromisoformat : TimeStr → Option Int
  | TimeStr.iso t => some t
  | _ => none

/-- One persisted cookie record, a leaf dict of the hierarchy; `none` in a
field models an absent key. -/
structure RawCookie where
  domain : Option String := none
  value : Option String := none
  timestamp : Option TimeStr := none
  ttl_seconds : Option Int := none
  variants : Option (Dict String) := none
deriving DecidableEq, Repr

/-- The env-level section dict; only its `cookies` key is consumed by the
cookie subsystem. -/
structure SectionData where
  cookies : Option (Dict RawCookie) := none
deriving DecidableEq, Repr

abbrev EnvDict : Type := Dict SectionData
abbrev UserDict : Type := Dict EnvDict

/-- The configuration tree handed to `CookieConfig`; only its top-level
`users` key is consumed by the cookie subsystem. -/
structure ConfigData where
  users : Option UserDict := none
deriving DecidableEq, Repr

/-- Python `config_data.get("users", {}).get(user, {}).get(env, {})`. -/
def ConfigData.sectionOf (cfg : ConfigData) (user env : String) : SectionData :=
  (dictGet? ((dictGet? (cfg.users.getD []) user).getD []) env).getD {}

/-- The section read followed by `section.get("cookies", {})`. -/
def ConfigData.cookiesOf (cfg : ConfigData) (user env : String) : Dict RawCookie :=
  ((cfg.sectionOf user env).cookies).getD []

/-- The dataclass `CacheEntry` of cookies.py. -/
structure CacheEntry where
  value : String
  timestamp : Int
  ttl_seconds : Int := 28800
  domain : String := ""
deriving DecidableEq, Repr

/-- Method `CacheEntry.is_valid`: `(now - self.timestamp).total_seconds() <
self.ttl_seconds`. -/
def CacheEntry.is_valid (e : CacheEntry) (now : Int) : Bool :=
  now - e.timestamp < e.ttl_seconds

/-- The dataclass `CookieRule` of cookies.py. -/
structure CookieRule where
  domain : String
  name : String
  variants : Dict String := []
  ttl_seconds : Option Int := none
deriving DecidableEq, Repr

/-- The per-record body of `load_cookie_cache`: include the record when its
`domain` field equals the requested domain, its `value` and `timestamp`
keys are present and non-sentinel, and the timestamp parses; the parsed
entry carries `ttl_seconds` via `cookie.get("ttl_seconds", 28800)` and the
requested domain. -/
def loadParse (domain : String) (c : RawCookie) : Option CacheEntry :=
  if c.domain = some domain then
    match c.value, c.timestamp with
    | some v, some ts =>
      if v ≠ "..." ∧ ts ≠ TimeStr.sentinel then
        match fromisoformat ts with
        | some t =>
          some { value := v, timestamp := t,
                 ttl_seconds := c.ttl_seconds.getD 28800, domain := domain }
        | none => none
      else none
    | _, _ => none
  else none

/-- The for-loop of `load_cookie_cache`, building `cache[name] = CacheEntry(...)`. -/
def loadLoop (domain : String) (cache : Dict CacheEntry) :
    List (String × RawCookie) → Dict CacheEntry
  | [] => cache
  | (n, c) :: rest =>
    match loadParse domain c with
    | some e => loadLoop domain (dictInsert cache n e) rest
    | none => loadLoop domain cache rest

namespace CookieConfig

/-- Method `CookieConfig.get_rules` (a read: the tree is returned unchanged,
mirroring that the source only uses non-mutating `.get` chains). -/
def get_rules (cfg : ConfigData) (user env domain : String) :
    List CookieRule × ConfigData :=
  ((cfg.cookiesOf user env).foldl
    (fun acc p =>
      if p.2.domain = some domain then
        acc ++ [{ domain := domain, name := p.1,
                  variants := p.2.variants.getD [],
                  ttl_seconds := some (p.2.ttl_seconds.getD 28800) : CookieRule }]
      else acc) [],
   cfg)

/-- Method `CookieConfig.load_cookie_cache` (a read). -/
def load_cookie_cache (cfg : ConfigData) (user env domain : String) :
    Dict CacheEntry × ConfigData :=
  (loadLoop domain [] (cfg.cookiesOf user env), cfg)

/-- Method `CookieConfig.get_valid_cookie_cache` (a read):
`load_cookie_cache` filtered by `entry.is_valid(now)` in order. -/
def get_valid_cookie_cache (cfg : ConfigData) (user env domain : String)
    (now : Int) : Dict CacheEntry × ConfigData :=
  (((load_cookie_cache cfg user env domain).1).filter
     (fun p => p.2.is_valid now),
   cfg)

/-- The record written for each entry by the for-loop of `save_cookie_cache`:
only the `domain`, `value` and serialized `timestamp` keys. -/
def savedRaw (domain : String) (e : CacheEntry) : RawCookie :=
  { domain := some domain, value := some e.value,
    timestamp := some (TimeStr.iso e.timestamp) }

/-- The for-loop of `save_cookie_cache` over the cache items. -/
def saveLoop (domain : String) (cookies : Dict RawCookie) :
    List (String × CacheEntry) → Dict RawCookie
  | [] => cookies
  | (n, e) :: rest => saveLoop domain (dictInsert cookies n (savedRaw domain e)) rest

/-- Rebuild of the tree after the `setdefault` chain of a mutating method
placed an updated section under `users → user → env`. -/
def rebuildTree (cfg : ConfigData) (user env : String) (sec : SectionData) :
    ConfigData :=
  let users := cfg.users.getD []
  let envs := (dictGet? users user).getD []
  { cfg with users := some (dictInsert users user (dictInsert envs env sec)) }

/-- Method `CookieConfig.save_cookie_cache`: merge the cache into the
scope, stamping `domain` and serializing `timestamp`. -/
def save_cookie_cache (cfg : ConfigData) (user env domain : String)
    (cache : Dict CacheEntry) : ConfigData :=
  let sec := cfg.sectionOf user env
  let cookies := sec.cookies.getD []
  rebuildTree cfg user env { sec with cookies := some (saveLoop domain cookies cache) }

/-- Method `CookieConfig.update_cookie_cache`: upsert of one record with a
fresh timestamp; the `ttl_seconds` key is written only when the argument
is not `None`. -/
def update_cookie_cache (cfg : ConfigData) (user env domain name value : String)
    (now : Int) (ttl_seconds : Option Int) : ConfigData :=
  let sec := cfg.sectionOf user env
  let cookies := sec.cookies.getD []
  let record : RawCookie :=
    { domain := some domain, value := some value,
      timestamp := some (TimeStr.iso now), ttl_seconds := ttl_seconds }
  rebuildTree cfg user env { sec with cookies := some (dictInsert cookies name record) }

/-- Method `CookieConfig.clear_cookie_cache`: `del` of every record of the
scope whose `domain` field equals the given domain. The source mutates the
dict returned by `section.get("cookies", {})`, so when the `cookies` key
is absent the deletions act on a fresh dict and the section keeps no
`cookies` key. -/
def clear_cookie_cache (cfg : ConfigData) (user env domain : String) :
    ConfigData :=
  let sec := cfg.sectionOf user env
  let sec1 :=
    match sec.cookies with
    | some m => { sec with cookies := some (m.filter (fun p => ! decide (p.2.domain = some domain))) }
    | none => sec
  rebuildTree cfg user env sec1

/-- The keep-decision of the loop of `prune_expired_cookies`: records of the
requested domain with concrete non-sentinel fields survive only when they
parse to a currently valid entry (unparseable timestamps are dropped via
the `continue`); every other record is kept. -/
def prune_keep (domain : String) (now : Int) (c : RawCookie) : Bool :=
  match c.value, c.timestamp with
  | some v, some ts =>
    if c.domain = some domain ∧ v ≠ "..." ∧ ts ≠ TimeStr.sentinel then
      match fromisoformat ts with
      | some t =>
        CacheEntry.is_valid
          { value := v, timestamp := t, ttl_seconds := c.ttl_seconds.getD 28800 } now
      | none => false
    else true
  | _, _ => true

/-- Method `CookieConfig.prune_expired_cookies`: rebuild the scope keeping
exactly the records `prune_keep` accepts, and always write the `cookies`
key back. -/
def prune_expired_cookies (cfg : ConfigData) (user env domain : String)
    (now : Int) : ConfigData :=
  let sec := cfg.sectionOf user env
  let cookies := sec.cookies.getD []
  rebuildTree cfg user env
    { sec with cookies := some (cookies.filter (fun p => prune_keep domain now p.2)) }

end CookieConfig

/-- Well-formedness-and-parse of one persisted record irrespective of its
domain: the shared shape of the record checks of `get_cache_entries`,
`load_cookie_cache` and `prune_expired_cookies` (the latter two differ
only in the `domain` field they stamp on the result, which does not
affect validity). -/
def parsedEntry (c : RawCookie) : Option CacheEntry :=
  match c.value, c.timestamp with
  | some v, some ts =>
    if v ≠ "..." ∧ ts ≠ TimeStr.sentinel then
      match fromisoformat ts with
      | some t =>
        some { value := v, timestamp := t, ttl_seconds := c.ttl_seconds.getD 28800 }
      | none => none
    else none
  | _, _ => none

/-- One cookie of the live browser session as returned by
`driver.get_cookies()`; `none` models an absent key (selenium always
supplies `name`). -/
structure BrowserCookie where
  name : String
  value : Option String := none
  domain : Option String := none
deriving DecidableEq, Repr

/-- Python `cookie_domain.endswith(domain)`: plain character-suffix test. -/
def pyEndsWith (s suffix : String) : Bool :=
  suffix.data.isSuffixOf s.data

/-- Function `read_cookies_from_browser`: filter the cookies of the session
to those whose `domain` value (default `""`) ends with the requested
domain. -/
def read_cookies_from_browser (allCookies : List BrowserCookie) (domain : String) :
    List BrowserCookie :=
  allCookies.filter (fun c => pyEndsWith (c.domain.getD "") domain)

/-- One `{"name": ..., "value": ..., "domain": ...}` triple built by the
reconciler for injection. -/
structure InjCookie where
  name : String
  value : String
  domain : String
deriving DecidableEq, Repr

/-- Observable outcome of one run of `inject_and_verify_cookies`:
the returned value, the interactions with the browser adapter (write and
read calls), the `update_cookie_cache` calls, and the final tree. -/
structure RecResult where
  retVal : Option (List InjCookie)
  writeInvoked : Bool
  writeCalls : List InjCookie
  readCalls : List String
  updateCalls : List (String × String × String)
  finalConfig : ConfigData
deriving DecidableEq, Repr

/-- The list comprehension `[val["domain"] for val in cookies.values()]`;
`val["domain"]` raises `KeyError` when the key is absent. -/
def domainsOf : List (String × RawCookie) → Option (List String)
  | [] => some []
  | (_, c) :: rest =>
    match c.domain, domainsOf rest with
    | some d, some ds => some (d :: ds)
    | _, _ => none

/-- The first loop of the reconciler: `valid_cache.update(...)` per target
domain. -/
def validCacheLoop (cfg : ConfigData) (user env : String) (now : Int)
    (acc : Dict CacheEntry) : List String → Dict CacheEntry
  | [] => acc
  | d :: rest =>
    validCacheLoop cfg user env now
      (dictInsertAll acc (CookieConfig.get_valid_cookie_cache cfg user env d now).1)
      rest

/-- The inner collection loop of the verification phase: keep a browser
cookie when its name was not collected yet and is a key of the valid
cache. -/
def verifySelect (validCache : Dict CacheEntry) (acc : List BrowserCookie) :
    List BrowserCookie → List BrowserCookie
  | [] => acc
  | ce :: rest =>
    if (!acc.any (fun bc => bc.name == ce.name)) && dictHasKey validCache ce.name then
      verifySelect validCache (acc ++ [ce]) rest
    else
      verifySelect validCache acc rest

/-- The outer loop of the verification phase over the target domains. -/
def verifyLoop (browserCookies : List BrowserCookie) (validCache : Dict CacheEntry)
    (acc : List BrowserCookie) : List String → List BrowserCookie
  | [] => acc
  | d :: rest =>
    verifyLoop browserCookies validCache
      (verifySelect validCache acc (read_cookies_from_browser browserCookies d))
      rest

/-- The update loop of the verification phase: one `update_cookie_cache`
call per collected browser cookie (with `ttl_seconds` left `None`). -/
def updateLoop (user env : String) (now : Int) (cfg : ConfigData) :
    List BrowserCookie → ConfigData
  | [] => cfg
  | ce :: rest =>
    updateLoop user env now
      (CookieConfig.update_cookie_cache cfg user env (ce.domain.getD "") ce.name
        (ce.value.getD "") now none)
      rest

/-- The body of `inject_and_verify_cookies` once the target domains are in
hand: replay phase, then verification phase. -/
def injectCore (cfg : ConfigData) (user env : String)
    (browserCookies : List BrowserCookie) (now : Int)
    (targetDomains : List String) : RecResult :=
  let validCache := validCacheLoop cfg user env now [] targetDomains
  let cookies_to_inject : Option (List InjCookie) :=
    if validCache.isEmpty then none
    else some (validCache.map (fun p => InjCookie.mk p.1 p.2.value p.2.domain))
  let writeCalls := (cookies_to_inject).getD []
  let browserSel := verifyLoop browserCookies validCache [] targetDomains
  { retVal := cookies_to_inject,
    writeInvoked := cookies_to_inject.isSome,
    writeCalls := writeCalls,
    readCalls := targetDomains,
    updateCalls := browserSel.map (fun ce => (ce.domain.getD "", ce.name, ce.value.getD "")),
    finalConfig := updateLoop user env now cfg browserSel }

/-- Function `inject_and_verify_cookies`. The domain-discovery line indexes
`config_data["users"][user][env]["cookies"]` directly, so a missing key at
any level raises `KeyError` (re-raised by the catch-all handler); this is
modelled by `Except.error`. -/
def inject_and_verify_cookies (cfg : ConfigData) (user env : String)
    (browserCookies : List BrowserCookie) (now : Int) : Except String RecResult :=
  match cfg.users with
  | none => Except.error ("KeyError: users")
  | some users =>
    match dictGet? users user with
    | none => Except.error ("KeyError: user")
    | some envs =>
      match dictGet? envs env with
      | none => Except.error ("KeyError: env")
      | some sec =>
        match sec.cookies with
        | none => Except.error ("KeyError: cookies")
        | some cookies =>
          match domainsOf cookies with
          | none => Except.error ("KeyError: domain")
          | some targetDomains =>
            Except.ok (injectCore cfg user env browserCookies now targetDomains)

/-- The scope path `users → user → env` is present in the tree. -/
def scopeExists (cfg : ConfigData) (u e : String) : Bool :=
  match cfg.users with
  | none => false
  | some us =>
    match dictGet? us u with
    | none => false
    | some es => (dictGet? es e).isSome

theorem rebuildTree_sectionOf (cfg : ConfigData) (u e : String) (sec : SectionData) :
    (CookieConfig.rebuildTree cfg u e sec).sectionOf u e = sec := by
  unfold CookieConfig.rebuildTree ConfigData.sectionOf
  simp [dictGet?_insert_self]

theorem rebuildTree_cookiesOf (cfg : ConfigData) (u e : String) (sec : SectionData) :
    (CookieConfig.rebuildTree cfg u e sec).cookiesOf u e = sec.cookies.getD [] := by
  unfold ConfigData.cookiesOf
  rw [rebuildTree_sectionOf]

theorem scopeExists_rebuildTree (cfg : ConfigData) (u e : String) (sec : SectionData) :
    scopeExists (CookieConfig.rebuildTree cfg u e sec) u e = true := by
  unfold scopeExists CookieConfig.rebuildTree
  simp [dictGet?_insert_self]

/-- C5 counterexample: the claim asserts `is_valid` is true at `now =
timestamp` for every entry ("a just-created entry is always valid"), but
with the strict comparison a just-created entry with `ttl_seconds = 0` is
already invalid. -/
theorem c5_counterexample :
    CacheEntry.is_valid { value := "v", timestamp := 0, ttl_seconds := 0, domain := "" } 0
      = false := by decide

/-- C5 (amended): for every entry, `is_valid(now)` holds exactly when
`now - timestamp < ttl_seconds`; it is true at `timestamp + (T-1)` and
false at `timestamp + T` and `timestamp + (T+1)` (strict boundary), and a
just-created entry is valid provided `ttl_seconds` is at least 1. -/
theorem c5_is_valid_boundary (e : CacheEntry) (now : Int) :
    (CacheEntry.is_valid e now = true ↔ now - e.timestamp < e.ttl_seconds) ∧
    CacheEntry.is_valid e (e.timestamp + (e.ttl_seconds - 1)) = true ∧
    CacheEntry.is_valid e (e.timestamp + e.ttl_seconds) = false ∧
    CacheEntry.is_valid e (e.timestamp + e.ttl_seconds + 1) = false ∧
    (1 ≤ e.ttl_seconds → CacheEntry.is_valid e e.timestamp = true) := by
  unfold CacheEntry.is_valid
  refine ⟨by simp, by simp, by simp, by simp; omega, fun h => by simp; omega⟩

/-- C5 witness: the amended boundary theorem applied to a concrete entry
with a positive TTL. -/
theorem c5_witness :
    CacheEntry.is_valid { value := "v", timestamp := 5, ttl_seconds := 10, domain := "" } 5
      = true :=
  (c5_is_valid_boundary { value := "v", timestamp := 5, ttl_seconds := 10, domain := "" } 5).2.2.2.2
    (by decide)

/-- Fixture for C3: a scope whose record `x` carries an explicit
`ttl_seconds` of 100. -/
def rawToken : RawCookie :=
  { domain := some ("d1"), value := some ("old"), timestamp := some (TimeStr.iso 0),
    ttl_seconds := some 100 }

def cfg3 : ConfigData :=
  { users := some [("bob", [("dev", { cookies := some [("x", rawToken)] })])] }

def cfg3after : ConfigData :=
  CookieConfig.update_cookie_cache cfg3 ("bob") ("dev") ("d1") ("x") ("v2") 50 none

/-- C3 counterexample: updating `x` with `ttl_seconds = None` does not
leave its TTL at the stored explicit 100 — the rewritten record has no
`ttl_seconds` key, so a subsequent load reports the default 28800. -/
theorem c3_counterexample :
    (CookieConfig.load_cookie_cache cfg3after ("bob") ("dev") ("d1")).1 =
      [("x", { value := "v2", timestamp := 50, ttl_seconds := 28800, domain := "d1" })] ∧
    (28800 : Int) ≠ 100 := by decide

/-- C3 (amended): `update_cookie_cache` with `ttl_seconds = None` replaces
the whole record by one holding only the fresh `domain`, `value` and
`timestamp` — any previously stored explicit TTL is discarded rather than
preserved. -/
theorem c3_update_none_ttl_resets (cfg : ConfigData) (u e d n v : String) (now : Int) :
    dictGet? ((CookieConfig.update_cookie_cache cfg u e d n v now none).cookiesOf u e) n =
      some { domain := some d, value := some v, timestamp := some (TimeStr.iso now),
             ttl_seconds := none, variants := none } := by
  unfold CookieConfig.update_cookie_cache
  rw [rebuildTree_cookiesOf]
  simp [dictGet?_insert_self]

/-- C9: `read_cookies_from_browser` keeps exactly the session cookies whose
domain string ends with the requested domain as a plain character suffix:
a cookie with domain `notexample.com` is kept for a request of
`example.com` (no dot-boundary check), and requesting the empty domain
returns every cookie of the session. -/
theorem c9_read_suffix_semantics :
    (∀ (l : List BrowserCookie) (d : String) (c : BrowserCookie),
       c ∈ read_cookies_from_browser l d ↔ c ∈ l ∧ d.data <:+ (c.domain.getD "").data) ∧
    (read_cookies_from_browser
       [{ name := "sid", value := some ("x"), domain := some ("notexample.com") }]
       ("example.com") =
       [{ name := "sid", value := some ("x"), domain := some ("notexample.com") }]) ∧
    (∀ l : List BrowserCookie, read_cookies_from_browser l ("") = l) := by
  refine ⟨?_, by decide, ?_⟩
  · intro l d c
    simp [read_cookies_from_browser, List.mem_filter, pyEndsWith]
  · intro l
    have hnil : ("" : String).data = [] := rfl
    simp [read_cookies_from_browser, pyEndsWith, hnil, List.filter_eq_self]

/-- C10: `clear_cookie_cache` and `prune_expired_cookies` are not read-only
on a missing scope — the `setdefault` chain inserts the `users → user →
env` path, so the tree changes even though no cookie entry is removed;
the read operations return the tree unchanged. -/
theorem c10_mutators_create_scope (cfg : ConfigData) (u e d : String) (now : Int)
    (h : scopeExists cfg u e = false) :
    scopeExists (CookieConfig.clear_cookie_cache cfg u e d) u e = true ∧
    CookieConfig.clear_cookie_cache cfg u e d ≠ cfg ∧
    scopeExists (CookieConfig.prune_expired_cookies cfg u e d now) u e = true ∧
    CookieConfig.prune_expired_cookies cfg u e d now ≠ cfg ∧
    (CookieConfig.get_rules cfg u e d).2 = cfg ∧
    (CookieConfig.load_cookie_cache cfg u e d).2 = cfg ∧
    (CookieConfig.get_valid_cookie_cache cfg u e d now).2 = cfg := by
  have hc : scopeExists (CookieConfig.clear_cookie_cache cfg u e d) u e = true := by
    unfold CookieConfig.clear_cookie_cache
    exact scopeExists_rebuildTree cfg u e _
  have hp : scopeExists (CookieConfig.prune_expired_cookies cfg u e d now) u e = true := by
    unfold CookieConfig.prune_expired_cookies
    exact scopeExists_rebuildTree cfg u e _
  refine ⟨hc, ?_, hp, ?_, rfl, rfl, rfl⟩
  · intro heq
    rw [heq, h] at hc
    exact Bool.noConfusion hc
  · intro heq
    rw [heq, h] at hp
    exact Bool.noConfusion hp

/-- C10 witness: on the empty tree the hypothesis of the frame theorem
holds and pruning a missing scope changes the tree. -/
theorem c10_witness :
    CookieConfig.prune_expired_cookies { users := none } ("u") ("e") ("d") 0
      ≠ { users := none } :=
  (c10_mutators_create_scope { users := none } ("u") ("e") ("d") 0 (by decide)).2.2.2.1

theorem loadLoop_get?_not_mem (d n : String) :
    ∀ (l : List (String × RawCookie)) (m0 : Dict CacheEntry), n ∉ dictKeys l →
      dictGet? (loadLoop d m0 l) n = dictGet? m0 n := by
  intro l
  induction l with
  | nil => intro m0 _; rfl
  | cons p rest ih =>
    obtain ⟨k, c⟩ := p
    intro m0 h
    simp [not_or] at h
    cases hp : loadParse d c with
    | some e =>
      simp only [loadLoop, hp]
      rw [ih (dictInsert m0 k e) h.2, dictGet?_insert_ne m0 k n e h.1]
    | none =>
      simp only [loadLoop, hp]
      exact ih m0 h.2

theorem loadLoop_get? (d n : String) :
    ∀ (l : List (String × RawCookie)) (m0 : Dict CacheEntry), (dictKeys l).Nodup →
      dictGet? (loadLoop d m0 l) n =
        (match dictGet? l n with
         | some c =>
           match loadParse d c with
           | some e => some e
           | none => dictGet? m0 n
         | none => dictGet? m0 n) := by
  intro l
  induction l with
  | nil => intro m0 _; rfl
  | cons p rest ih =>
    obtain ⟨k, c1⟩ := p
    intro m0 hnd
    have hnd2 : (dictKeys rest).Nodup := (List.nodup_cons.mp hnd).2
    by_cases hk : k = n
    · subst hk
      have hknotin : k ∉ dictKeys rest := (List.nodup_cons.mp hnd).1
      cases hq : loadParse d c1 with
      | some e =>
        simp only [loadLoop, hq]
        rw [ih (dictInsert m0 k e) hnd2, (dictGet?_eq_none_iff rest k).mpr hknotin]
        simp [dictGet?, dictGet?_insert_self, hq]
      | none =>
        simp only [loadLoop, hq]
        rw [ih m0 hnd2, (dictGet?_eq_none_iff rest k).mpr hknotin]
        simp [dictGet?, hq]
    · have hne : ¬ k = n := hk
      have hnk : n ≠ k := fun hh => hk hh.symm
      cases hq : loadParse d c1 with
      | some e =>
        simp only [loadLoop, hq]
        rw [ih (dictInsert m0 k e) hnd2]
        simp only [dictGet?, if_neg hne]
        cases hr : dictGet? rest n with
        | some c =>
          cases loadParse d c <;> simp [dictGet?_insert_ne m0 k n e hnk]
        | none => simp [dictGet?_insert_ne m0 k n e hnk]
      | none =>
        simp only [loadLoop, hq]
        rw [ih m0 hnd2]
        simp only [dictGet?, if_neg hne]

theorem loadLoop_keys_sub (d n : String) :
    ∀ (l : List (String × RawCookie)) (m0 : Dict CacheEntry),
      n ∈ dictKeys (loadLoop d m0 l) → n ∈ dictKeys m0 ∨ n ∈ dictKeys l := by
  intro l
  induction l with
  | nil => intro m0 h; exact Or.inl h
  | cons p rest ih =>
    obtain ⟨k, c1⟩ := p
    intro m0 h
    cases hq : loadParse d c1 with
    | some e =>
      rw [loadLoop, hq] at h
      rcases ih (dictInsert m0 k e) h with h1 | h1
      · by_cases hm : k ∈ dictKeys m0
        · rw [dictKeys_insert_mem m0 k e hm] at h1
          exact Or.inl h1
        · rw [dictKeys_insert_not_mem m0 k e hm] at h1
          rcases List.mem_append.mp h1 with h2 | h2
          · exact Or.inl h2
          · simp at h2
            subst h2
            exact Or.inr (by simp)
      · exact Or.inr (by simp [h1])
    | none =>
      rw [loadLoop, hq] at h
      rcases ih m0 h with h1 | h1
      · exact Or.inl h1
      · exact Or.inr (by simp [h1])

theorem loadLoop_keys_nodup (d : String) :
    ∀ (l : List (String × RawCookie)) (m0 : Dict CacheEntry),
      (dictKeys m0).Nodup → (dictKeys (loadLoop d m0 l)).Nodup := by
  intro l
  induction l with
  | nil => intro m0 h; exact h
  | cons p rest ih =>
    obtain ⟨k, c1⟩ := p
    intro m0 h
    cases hq : loadParse d c1 with
    | some e =>
      rw [loadLoop, hq]
      exact ih (dictInsert m0 k e) (dictKeys_insert_nodup m0 k e h)
    | none =>
      rw [loadLoop, hq]
      exact ih m0 h

theorem saveLoop_get?_not_mem (d n : String) :
    ∀ (l : List (String × CacheEntry)) (m : Dict RawCookie), n ∉ dictKeys l →
      dictGet? (CookieConfig.saveLoop d m l) n = dictGet? m n := by
  intro l
  induction l with
  | nil => intro m _; rfl
  | cons p rest ih =>
    obtain ⟨k, e1⟩ := p
    intro m h
    simp [not_or] at h
    rw [CookieConfig.saveLoop, ih (dictInsert m k (CookieConfig.savedRaw d e1)) h.2,
      dictGet?_insert_ne m k n (CookieConfig.savedRaw d e1) h.1]

theorem saveLoop_get?_some (d n : String) :
    ∀ (l : List (String × CacheEntry)) (m : Dict RawCookie), (dictKeys l).Nodup →
      ∀ en, dictGet? l n = some en →
        dictGet? (CookieConfig.saveLoop d m l) n = some (CookieConfig.savedRaw d en) := by
  intro l
  induction l with
  | nil => intro m _ en h; cases h
  | cons p rest ih =>
    obtain ⟨k, e1⟩ := p
    intro m hnd en h
    have hnd2 : (dictKeys rest).Nodup := (List.nodup_cons.mp hnd).2
    by_cases hk : k = n
    · subst hk
      have he1 : e1 = en := by simpa [dictGet?] using h
      subst he1
      have hknotin : k ∉ dictKeys rest := (List.nodup_cons.mp hnd).1
      rw [CookieConfig.saveLoop,
        saveLoop_get?_not_mem d k rest (dictInsert m k (CookieConfig.savedRaw d e1)) hknotin,
        dictGet?_insert_self]
    · have h2 : dictGet? rest n = some en := by simpa [dictGet?, hk] using h
      rw [CookieConfig.saveLoop]
      exact ih (dictInsert m k (CookieConfig.savedRaw d e1)) hnd2 en h2

theorem saveLoop_keys (d : String) :
    ∀ (l : List (String × CacheEntry)) (m : Dict RawCookie),
      (∀ k ∈ dictKeys l, k ∈ dictKeys m) →
      dictKeys (CookieConfig.saveLoop d m l) = dictKeys m := by
  intro l
  induction l with
  | nil => intro m _; rfl
  | cons p rest ih =>
    obtain ⟨k, e1⟩ := p
    intro m h
    have hk : k ∈ dictKeys m := h k (by simp)
    have hkeys : dictKeys (dictInsert m k (CookieConfig.savedRaw d e1)) = dictKeys m :=
      dictKeys_insert_mem m k (CookieConfig.savedRaw d e1) hk
    rw [CookieConfig.saveLoop, ih (dictInsert m k (CookieConfig.savedRaw d e1)) ?_, hkeys]
    intro k1 hk1
    rw [hkeys]
    exact h k1 (by simp [hk1])

theorem saveLoop_keys_nodup (d : String) :
    ∀ (l : List (String × CacheEntry)) (m : Dict RawCookie),
      (dictKeys m).Nodup → (dictKeys (CookieConfig.saveLoop d m l)).Nodup := by
  intro l
  induction l with
  | nil => intro m h; exact h
  | cons p rest ih =>
    obtain ⟨k, e1⟩ := p
    intro m h
    rw [CookieConfig.saveLoop]
    exact ih (dictInsert m k (CookieConfig.savedRaw d e1))
      (dictKeys_insert_nodup m k (CookieConfig.savedRaw d e1) h)

theorem loadParse_value (d : String) (c : RawCookie) (en : CacheEntry)
    (h : loadParse d c = some en) : c.value = some en.value := by
  unfold loadParse at h
  split at h
  · split at h
    · split at h
      · split at h
        · injection h with h1
          subst h1
          simp_all
        · cases h
      · cases h
    · cases h
  · cases h

theorem save_cookiesOf (cfg : ConfigData) (u e d : String) (cache : Dict CacheEntry) :
    (CookieConfig.save_cookie_cache cfg u e d cache).cookiesOf u e =
      CookieConfig.saveLoop d (cfg.cookiesOf u e) cache := by
  unfold CookieConfig.save_cookie_cache
  rw [rebuildTree_cookiesOf]
  rfl

/-- C7: saving the loaded cache back into the same scope changes neither
the list of cookie names under (user, env) nor the stored `value` of any
record. -/
theorem c7_save_of_load_roundtrip (cfg : ConfigData) (u e d : String)
    (hnd : (dictKeys (cfg.cookiesOf u e)).Nodup) :
    dictKeys ((CookieConfig.save_cookie_cache cfg u e d
        (CookieConfig.load_cookie_cache cfg u e d).1).cookiesOf u e)
      = dictKeys (cfg.cookiesOf u e) ∧
    (∀ n c, dictGet? (cfg.cookiesOf u e) n = some c →
       ∃ c1, dictGet? ((CookieConfig.save_cookie_cache cfg u e d
           (CookieConfig.load_cookie_cache cfg u e d).1).cookiesOf u e) n = some c1 ∧
         c1.value = c.value) := by
  rw [save_cookiesOf]
  have hload1 : (CookieConfig.load_cookie_cache cfg u e d).1
      = loadLoop d [] (cfg.cookiesOf u e) := rfl
  constructor
  · apply saveLoop_keys
    intro k hk
    rw [hload1] at hk
    rcases loadLoop_keys_sub d k (cfg.cookiesOf u e) [] hk with h1 | h1
    · cases h1
    · exact h1
  · intro n c hc
    rw [hload1]
    cases hp : loadParse d c with
    | some en =>
      have hload : dictGet? (loadLoop d [] (cfg.cookiesOf u e)) n = some en := by
        rw [loadLoop_get? d n (cfg.cookiesOf u e) [] hnd, hc]
        simp [hp]
      have hnd2 : (dictKeys (loadLoop d [] (cfg.cookiesOf u e))).Nodup :=
        loadLoop_keys_nodup d (cfg.cookiesOf u e) [] (by simp)
      refine ⟨CookieConfig.savedRaw d en, ?_, ?_⟩
      · exact saveLoop_get?_some d n (loadLoop d [] (cfg.cookiesOf u e))
          (cfg.cookiesOf u e) hnd2 en hload
      · have hv : c.value = some en.value := loadParse_value d c en hp
        rw [hv]
        rfl
    | none =>
      have hload : dictGet? (loadLoop d [] (cfg.cookiesOf u e)) n = none := by
        rw [loadLoop_get? d n (cfg.cookiesOf u e) [] hnd, hc]
        simp [hp, dictGet?]
      have hnotin : n ∉ dictKeys (loadLoop d [] (cfg.cookiesOf u e)) :=
        (dictGet?_eq_none_iff _ n).mp hload
      refine ⟨c, ?_, rfl⟩
      rw [saveLoop_get?_not_mem d n (loadLoop d [] (cfg.cookiesOf u e))
        (cfg.cookiesOf u e) hnotin]
      exact hc

/-- Fixtures for the C7 witness: a scope with two well-formed records. -/
def rawA : RawCookie :=
  { domain := some ("dA"), value := some ("va"), timestamp := some (TimeStr.iso 0),
    ttl_seconds := some 50 }

def rawB : RawCookie :=
  { domain := some ("dB"), value := some ("vb"), timestamp := some (TimeStr.iso 0) }

def cfg7 : ConfigData :=
  { users := some [("w", [("x", { cookies := some [("a", rawA), ("b", rawB)] })])] }

/-- C7 witness: the round-trip theorem applied to a concrete two-record
scope, instantiated at the record of the saved domain. -/
theorem c7_witness :
    dictKeys ((CookieConfig.save_cookie_cache cfg7 ("w") ("x") ("dA")
        (CookieConfig.load_cookie_cache cfg7 ("w") ("x") ("dA")).1).cookiesOf ("w") ("x"))
      = dictKeys (cfg7.cookiesOf ("w") ("x")) ∧
    ∃ c1, dictGet? ((CookieConfig.save_cookie_cache cfg7 ("w") ("x") ("dA")
        (CookieConfig.load_cookie_cache cfg7 ("w") ("x") ("dA")).1).cookiesOf ("w") ("x")) ("a")
        = some c1 ∧ c1.value = rawA.value :=
  ⟨(c7_save_of_load_roundtrip cfg7 ("w") ("x") ("dA") (by decide)).1,
   (c7_save_of_load_roundtrip cfg7 ("w") ("x") ("dA") (by decide)).2 ("a") rawA (by decide)⟩

/-- C8: the records written by `save_cookie_cache` hold only `domain`,
`value` and `timestamp` — no `ttl_seconds` key survives — so a subsequent
`load_cookie_cache` reports the default TTL 28800 for every saved entry. -/
theorem c8_save_drops_ttl (cfg : ConfigData) (u e d : String) (cache : Dict CacheEntry)
    (n : String) (entry : CacheEntry)
    (h0 : (dictKeys (cfg.cookiesOf u e)).Nodup)
    (h1 : dictGet? cache n = some entry)
    (h2 : (dictKeys cache).Nodup)
    (h3 : entry.value ≠ "...") :
    dictGet? ((CookieConfig.save_cookie_cache cfg u e d cache).cookiesOf u e) n =
      some { domain := some d, value := some entry.value,
             timestamp := some (TimeStr.iso entry.timestamp),
             ttl_seconds := none, variants := none } ∧
    dictGet? ((CookieConfig.load_cookie_cache
        (CookieConfig.save_cookie_cache cfg u e d cache) u e d).1) n =
      some { value := entry.value, timestamp := entry.timestamp,
             ttl_seconds := 28800, domain := d } := by
  have hraw : dictGet? ((CookieConfig.save_cookie_cache cfg u e d cache).cookiesOf u e) n
      = some (CookieConfig.savedRaw d entry) := by
    rw [save_cookiesOf]
    exact saveLoop_get?_some d n cache (cfg.cookiesOf u e) h2 entry h1
  have hnd3 : (dictKeys ((CookieConfig.save_cookie_cache cfg u e d cache).cookiesOf u e)).Nodup := by
    rw [save_cookiesOf]
    exact saveLoop_keys_nodup d cache (cfg.cookiesOf u e) h0
  constructor
  · exact hraw
  · have hload1 : (CookieConfig.load_cookie_cache
        (CookieConfig.save_cookie_cache cfg u e d cache) u e d).1
        = loadLoop d [] ((CookieConfig.save_cookie_cache cfg u e d cache).cookiesOf u e) := rfl
    rw [hload1, loadLoop_get? d n _ [] hnd3, hraw]
    simp [loadParse, CookieConfig.savedRaw, fromisoformat, h3]

/-- C8 witness: saving a cache whose entry has a non-default TTL of 500
and reloading reports 28800. -/
theorem c8_witness :
    dictGet? ((CookieConfig.save_cookie_cache cfg7 ("w") ("x") ("dA")
        [(("a"), { value := "va2", timestamp := 3, ttl_seconds := 500, domain := "dA" })]).cookiesOf
        ("w") ("x")) ("a") =
      some { domain := some ("dA"), value := some ("va2"),
             timestamp := some (TimeStr.iso 3), ttl_seconds := none, variants := none } ∧
    dictGet? ((CookieConfig.load_cookie_cache
        (CookieConfig.save_cookie_cache cfg7 ("w") ("x") ("dA")
          [(("a"), { value := "va2", timestamp := 3, ttl_seconds := 500, domain := "dA" })])
        ("w") ("x") ("dA")).1) ("a") =
      some { value := "va2", timestamp := 3, ttl_seconds := 28800, domain := "dA" } :=
  c8_save_drops_ttl cfg7 ("w") ("x") ("dA")
    [(("a"), { value := "va2", timestamp := 3, ttl_seconds := 500, domain := "dA" })]
    ("a") { value := "va2", timestamp := 3, ttl_seconds := 500, domain := "dA" }
    (by decide) (by decide) (by decide) (by decide)

theorem prune_keep_of_ne_domain (d : String) (now : Int) (c : RawCookie)
    (h : c.domain ≠ some d) : CookieConfig.prune_keep d now c = true := by
  cases hv : c.value with
  | none => simp [CookieConfig.prune_keep, hv]
  | some v =>
    cases ht : c.timestamp with
    | none => simp [CookieConfig.prune_keep, hv, ht]
    | some ts => simp [CookieConfig.prune_keep, hv, ht, h]

theorem prune_keep_valid (d : String) (now : Int) (c : RawCookie)
    (hk : CookieConfig.prune_keep d now c = true) (hd : c.domain = some d)
    (en : CacheEntry) (hen : parsedEntry c = some en) : en.is_valid now = true := by
  cases hv : c.value with
  | none => simp [parsedEntry, hv] at hen
  | some v =>
    cases ht : c.timestamp with
    | none => simp [parsedEntry, hv, ht] at hen
    | some ts =>
      by_cases hcond : v ≠ "..." ∧ ts ≠ TimeStr.sentinel
      · cases hts : fromisoformat ts with
        | none =>
          simp [parsedEntry, hv, ht, hcond, hts] at hen
        | some t =>
          have hen1 :
              en = { value := v, timestamp := t, ttl_seconds := c.ttl_seconds.getD 28800,
                     domain := "" } := by
            simp [parsedEntry, hv, ht, hcond, hts] at hen
            exact hen.symm
          subst hen1
          simpa [CookieConfig.prune_keep, hv, ht, hd, hcond, hts] using hk
      · simp [parsedEntry, hv, ht, hcond] at hen

/-- C6: pruning is destructive and domain-scoped — it removes every record
of the requested domain whose parsed entry is expired, keeps no record
that was not already present, and leaves every record of other domains
(expired or not) in place. -/
theorem c6_prune_scoped (cfg : ConfigData) (u e d : String) (now : Int) :
    (∀ p ∈ (CookieConfig.prune_expired_cookies cfg u e d now).cookiesOf u e,
        p ∈ cfg.cookiesOf u e) ∧
    (∀ p ∈ (CookieConfig.prune_expired_cookies cfg u e d now).cookiesOf u e,
        p.2.domain = some d →
          ∀ en, parsedEntry p.2 = some en → en.is_valid now = true) ∧
    (∀ p ∈ cfg.cookiesOf u e, p.2.domain ≠ some d →
        p ∈ (CookieConfig.prune_expired_cookies cfg u e d now).cookiesOf u e) := by
  have hafter : (CookieConfig.prune_expired_cookies cfg u e d now).cookiesOf u e =
      (cfg.cookiesOf u e).filter (fun p => CookieConfig.prune_keep d now p.2) := by
    unfold CookieConfig.prune_expired_cookies
    rw [rebuildTree_cookiesOf]
    rfl
  refine ⟨?_, ?_, ?_⟩
  · intro p hp
    rw [hafter] at hp
    exact (List.mem_filter.mp hp).1
  · intro p hp hd en hen
    rw [hafter] at hp
    exact prune_keep_valid d now p.2 (List.mem_filter.mp hp).2 hd en hen
  · intro p hp hd
    rw [hafter]
    exact List.mem_filter.mpr ⟨hp, prune_keep_of_ne_domain d now p.2 hd⟩

/-- Fixtures for the C6 witness: an expired record of domain dA next to an
equally expired record of domain dB. -/
def rawExpiredA : RawCookie :=
  { domain := some ("dA"), value := some ("v"), timestamp := some (TimeStr.iso 0),
    ttl_seconds := some 10 }

def rawExpiredB : RawCookie :=
  { domain := some ("dB"), value := some ("v"), timestamp := some (TimeStr.iso 0),
    ttl_seconds := some 10 }

def cfg6 : ConfigData :=
  { users := some
      [("u6", [("e6", { cookies := some ([("p", rawExpiredA), ("q", rawExpiredB)]) })])] }

/-- C6 witness: the scoping theorem applied to the concrete fixture — the
expired record of the other domain survives the prune of dA. -/
theorem c6_witness :
    ("q", rawExpiredB) ∈
      (CookieConfig.prune_expired_cookies cfg6 ("u6") ("e6") ("dA") 100).cookiesOf
        ("u6") ("e6") := by
  have hco : cfg6.cookiesOf ("u6") ("e6") = [("p", rawExpiredA), ("q", rawExpiredB)] := rfl
  exact (c6_prune_scoped cfg6 ("u6") ("e6") ("dA") 100).2.2 ("q", rawExpiredB)
    (by rw [hco]; simp) (by decide)

/-- The `users → user → env → cookies` path as read by the direct indexing
of the domain-discovery line of the reconciler. -/
def cookiesPath (cfg : ConfigData) (u e : String) : Option (Dict RawCookie) :=
  match cfg.users with
  | none => none
  | some us =>
    match dictGet? us u with
    | none => none
    | some es =>
      match dictGet? es e with
      | none => none
      | some sec => sec.cookies

theorem cookiesOf_of_path (cfg : ConfigData) (u e : String) (L : Dict RawCookie)
    (h : cookiesPath cfg u e = some L) : cfg.cookiesOf u e = L := by
  unfold cookiesPath at h
  unfold ConfigData.cookiesOf ConfigData.sectionOf
  split at h
  · cases h
  · rename_i us hu
    split at h
    · cases h
    · rename_i es hgu
      split at h
      · cases h
      · rename_i sec hge
        simp only [hu, Option.getD_some, hgu, hge, h]

theorem verifySelect_empty (l : List BrowserCookie) (acc : List BrowserCookie) :
    verifySelect [] acc l = acc := by
  induction l generalizing acc with
  | nil => rfl
  | cons ce rest ih =>
    simp only [verifySelect, dictHasKey, dictGet?, Option.isSome, Bool.and_false]
    exact ih acc

theorem verifyLoop_empty (b : List BrowserCookie) (acc : List BrowserCookie)
    (doms : List String) :
    verifyLoop b [] acc doms = acc := by
  induction doms generalizing acc with
  | nil => rfl
  | cons d rest ih =>
    simp only [verifyLoop, verifySelect_empty]
    exact ih acc

/-- C2 counterexample: on a tree with no `users` key at all the reconciler
does not complete normally — the direct indexing raises `KeyError`. -/
theorem c2_counterexample :
    inject_and_verify_cookies { users := none } ("alice") ("prod") [] 0
      = Except.error ("KeyError: users") := rfl

/-- C2 (amended): when the `users → user → env → cookies` path is missing
the reconciler raises `KeyError` instead of treating it as an empty cache;
only when the path exists (for example holding an empty cookies map) does
it complete normally with an empty domain set, nothing injected, no cache
update and the tree unchanged. -/
theorem c2_missing_path_raises (cfg : ConfigData) (u e : String)
    (b : List BrowserCookie) (now : Int) :
    (cookiesPath cfg u e = none →
       ∃ msg, inject_and_verify_cookies cfg u e b now = Except.error msg) ∧
    (cookiesPath cfg u e = some [] →
       inject_and_verify_cookies cfg u e b now =
         Except.ok { retVal := none, writeInvoked := false, writeCalls := [],
                     readCalls := [], updateCalls := [], finalConfig := cfg }) := by
  constructor
  · intro h
    unfold cookiesPath at h
    unfold inject_and_verify_cookies
    split
    · exact ⟨("KeyError: users"), rfl⟩
    · rename_i us hu
      simp only [hu] at h
      split
      · exact ⟨("KeyError: user"), rfl⟩
      · rename_i es hgu
        simp only [hgu] at h
        split
        · exact ⟨("KeyError: env"), rfl⟩
        · rename_i sec hge
          simp only [hge] at h
          split
          · exact ⟨("KeyError: cookies"), rfl⟩
          · rename_i cookies hsc
            rw [hsc] at h
            cases h
  · intro h
    unfold cookiesPath at h
    unfold inject_and_verify_cookies
    split
    · rename_i hu
      simp only [hu] at h
      cases h
    · rename_i us hu
      simp only [hu] at h
      split
      · rename_i hgu
        simp only [hgu] at h
        cases h
      · rename_i es hgu
        simp only [hgu] at h
        split
        · rename_i hge
          simp only [hge] at h
          cases h
        · rename_i sec hge
          simp only [hge] at h
          split
          · rename_i hsc
            rw [hsc] at h
            cases h
          · rename_i cookies hsc
            rw [hsc] at h
            injection h with h1
            subst h1
            rfl

/-- Fixture for the C2 witness: a scope present with an empty cookies map. -/
def cfg2w : ConfigData :=
  { users := some [("au", [("ap", { cookies := some ([]) })])] }

/-- C2 witness: the amended theorem applied to the tree whose scope exists
with an empty cookies map. -/
theorem c2_witness :
    inject_and_verify_cookies cfg2w ("au") ("ap") [] 0 =
      Except.ok { retVal := none, writeInvoked := false, writeCalls := [],
                  readCalls := [], updateCalls := [], finalConfig := cfg2w } :=
  (c2_missing_path_raises cfg2w ("au") ("ap") [] 0).2 rfl

/-- Fixtures for the expired-cache reconciliation scenario: the only
cached record is `sessionid` for `example.com`, captured at instant 0 with
the default TTL of 28800, reconciled at instant 32400 (9 hours later);
the browser session still holds the cookie. -/
def rawSession : RawCookie :=
  { domain := some ("example.com"), value := some ("abc123"),
    timestamp := some (TimeStr.iso 0) }

def cfg1 : ConfigData :=
  { users := some [("alice", [("prod", { cookies := some ([("sessionid", rawSession)]) })])] }

def browser1 : List BrowserCookie :=
  [{ name := "sessionid", value := some ("abc123"), domain := some ("example.com") }]

def c1expected : RecResult :=
  { retVal := none, writeInvoked := false, writeCalls := [],
    readCalls := [("example.com")], updateCalls := [], finalConfig := cfg1 }

/-- C1 counterexample: in the expired-cache scenario the reconciler indeed
skips the write capability and still reads `example.com`, but it performs
no `update_cookie_cache` call at all — the observed `sessionid` value is
filtered out because its name is not a key of the (empty) valid cache, so
the tree is returned unchanged, contradicting the claimed unconditional
cache update. -/
theorem c1_counterexample :
    inject_and_verify_cookies cfg1 ("alice") ("prod") browser1 32400
      = Except.ok c1expected ∧
    c1expected.updateCalls = [] ∧ c1expected.finalConfig = cfg1 := by
  refine ⟨rfl, rfl, rfl⟩

/-- C1 (amended): in the expired-cache scenario (single cached record for
the scope, well-formed, with `now - timestamp` at or beyond its TTL) the
reconciler does not call the write capability, still calls the read
capability for the domain of the record, and performs no
`update_cookie_cache` call, leaving the tree unchanged — verification
only reconciles cookies whose names are keys of the valid cache, which is
empty here. -/
theorem c1_expired_cache_no_update (cfg : ConfigData) (u e d n v : String)
    (t ttl now : Int) (b : List BrowserCookie) (raw : RawCookie)
    (hpath : cookiesPath cfg u e = some [(n, raw)])
    (hd : raw.domain = some d)
    (hv : raw.value = some v)
    (hvs : v ≠ "...")
    (ht : raw.timestamp = some (TimeStr.iso t))
    (httl : raw.ttl_seconds.getD 28800 = ttl)
    (hexp : ttl ≤ now - t) :
    inject_and_verify_cookies cfg u e b now =
      Except.ok { retVal := none, writeInvoked := false, writeCalls := [],
                  readCalls := [d], updateCalls := [], finalConfig := cfg } := by
  have hco : cfg.cookiesOf u e = [(n, raw)] := cookiesOf_of_path cfg u e _ hpath
  have hparse : loadParse d raw =
      some { value := v, timestamp := t, ttl_seconds := ttl, domain := d } := by
    simp [loadParse, hd, hv, ht, hvs, fromisoformat, httl]
  have hvalid : CacheEntry.is_valid
      { value := v, timestamp := t, ttl_seconds := ttl, domain := d } now = false := by
    simp [CacheEntry.is_valid]
    omega
  have hgv : (CookieConfig.get_valid_cookie_cache cfg u e d now).1 = [] := by
    simp [CookieConfig.get_valid_cookie_cache, CookieConfig.load_cookie_cache, hco,
      loadLoop, hparse, dictInsert, hvalid]
  have hcore : injectCore cfg u e b now [d] =
      { retVal := none, writeInvoked := false, writeCalls := [],
        readCalls := [d], updateCalls := [], finalConfig := cfg } := by
    unfold injectCore
    simp [validCacheLoop, hgv, dictInsertAll, verifyLoop_empty, updateLoop]
  unfold cookiesPath at hpath
  unfold inject_and_verify_cookies
  split
  · rename_i hu
    simp only [hu] at hpath
    cases hpath
  · rename_i us hu
    simp only [hu] at hpath
    split
    · rename_i hgu
      simp only [hgu] at hpath
      cases hpath
    · rename_i es hgu
      simp only [hgu] at hpath
      split
      · rename_i hge
        simp only [hge] at hpath
        cases hpath
      · rename_i sec hge
        simp only [hge] at hpath
        split
        · rename_i hsc
          rw [hsc] at hpath
          cases hpath
        · rename_i cookies hsc
          rw [hsc] at hpath
          injection hpath with h1
          subst h1
          have hdo : domainsOf [(n, raw)] = some [d] := by
            simp [domainsOf, hd]
          simp only [hdo]
          rw [hcore]

/-- C1 witness: the amended theorem applied to the concrete expired
fixture. -/
theorem c1_witness :
    inject_and_verify_cookies cfg1 ("alice") ("prod") browser1 32400 =
      Except.ok { retVal := none, writeInvoked := false, writeCalls := [],
                  readCalls := [("example.com")], updateCalls := [],
                  finalConfig := cfg1 } :=
  c1_expired_cache_no_update cfg1 ("alice") ("prod") ("example.com") ("sessionid")
    ("abc123") 0 28800 32400 browser1 rawSession rfl rfl rfl (by decide) rfl rfl
    (by decide)

/-- C4 counterexample: when nothing was replayed the reconciler returns
`None`, not an empty list — on the expired fixture the returned value is
`none`, which is not `some []`. -/
theorem c4_counterexample :
    inject_and_verify_cookies cfg1 ("alice") ("prod") browser1 32400
      = Except.ok c1expected ∧
    c1expected.retVal = none ∧
    c1expected.retVal ≠ some [] := by
  refine ⟨rfl, rfl, by decide⟩

/-- C4 (amended): on every normal completion the reconciler returns either
`None` (exactly when nothing was replayed, the adapter write capability
never invoked) or the non-empty list of cookies actually handed to the
write capability — never an empty list. -/
theorem c4_return_injected_or_none (cfg : ConfigData) (u e : String)
    (b : List BrowserCookie) (now : Int) (r : RecResult)
    (h : inject_and_verify_cookies cfg u e b now = Except.ok r) :
    (r.retVal = none ∧ r.writeInvoked = false ∧ r.writeCalls = []) ∨
    (∃ l, r.retVal = some l ∧ l ≠ [] ∧ r.writeInvoked = true ∧ r.writeCalls = l) := by
  unfold inject_and_verify_cookies at h
  split at h
  · cases h
  · split at h
    · cases h
    · split at h
      · cases h
      · split at h
        · cases h
        · split at h
          · cases h
          · rename_i targetDomains hdo
            injection h with h1
            subst h1
            by_cases hvc : (validCacheLoop cfg u e now [] targetDomains).isEmpty = true
            · left
              simp [injectCore, hvc]
            · rw [Bool.not_eq_true] at hvc
              right
              refine ⟨(validCacheLoop cfg u e now [] targetDomains).map
                (fun p => InjCookie.mk p.1 p.2.value p.2.domain), ?_, ?_, ?_, ?_⟩
              · simp [injectCore, hvc]
              · intro hmap
                rw [List.map_eq_nil_iff] at hmap
                rw [hmap] at hvc
                simp at hvc
              · simp [injectCore, hvc]
              · simp [injectCore, hvc]

/-- C4 witness: the amended theorem applied to the expired fixture run,
whose normal completion returns `None` with the write capability never
invoked. -/
theorem c4_witness :
    (c1expected.retVal = none ∧ c1expected.writeInvoked = false ∧
      c1expected.writeCalls = []) ∨
    (∃ l, c1expected.retVal = some l ∧ l ≠ [] ∧ c1expected.writeInvoked = true ∧
      c1expected.writeCalls = l) :=
  c4_return_injected_or_none cfg1 ("alice") ("prod") browser1 32400 c1expected rfl

end BrowserLauncher
